import Mathlib

/-!
# Verification of `spherical_semivariogram`

A shallow embedding of `src/jupyter/lib/semivariograms.py`:

```python
def spherical_semivariogram(x, az, rng, sill, nugget=0):
    h = np.asarray(x)
    t = az/180 * pi + pi/2
    Q = np.array([[cos(t), sin(t)],
                  [-sin(t), cos(t)]])
    h = np.matmul(h, Q)
    r = rng[0] / rng[1]
    D = np.array([[1, 0],
                  [0, r]])
    h = np.matmul(h, D)
    h = (h ** 2).sum(axis=-1) ** 0.5
    return np.where(h < rng[0],
                    ((sill - nugget) *
                     (3 * h / 2 / rng[0] - 0.5 * np.power(h / rng[0], 3)) +
                     nugget),
                    sill)
```

The input `x` is modelled as a list of lag vectors, each itself a list of
real coordinates.  The two failure modes of the Python code are modelled by
an `Except` result:

* `np.matmul(h, Q)` raises a `ValueError` when the trailing dimension of
  `x` is not 2 (the spec calls this a `ShapeError`);
* `rng[0] / rng[1]` raises a Python `ZeroDivisionError` when `rng[1] = 0`
  (the spec calls this a `DomainError`).

Note that `rng[0]` only ever appears as a divisor inside the `np.where`
branch expression, where NumPy division by zero yields `inf`/`nan` with a
warning rather than an exception; since `h < rng[0]` is false for every
`h ≥ 0` when `rng[0] = 0`, the `np.where` then selects `sill` everywhere,
so a zero `rng[0]` raises nothing.  This is reflected faithfully by Lean's
convention `x / 0 = 0` together with the same `if h < rng0` test.
-/

namespace Semivariograms

/-- Errors the Python code can raise: `ShapeError` models the `ValueError`
raised by `np.matmul` on a trailing dimension other than 2, `DomainError`
models the `ZeroDivisionError` raised by `rng[0] / rng[1]`. -/
inductive SvError where
  | ShapeError : SvError
  | DomainError : SvError
deriving DecidableEq

/-- `t = az/180 * pi + pi/2` — azimuth in degrees converted to radians with
origin along the x axis. -/
noncomputable def rotAngle (az : ℝ) : ℝ := az / 180 * Real.pi + Real.pi / 2

/-- One row of `np.matmul(h, Q)` with `Q = [[cos t, sin t], [-sin t, cos t]]`:
the row vector `v` is multiplied on the right by `Q`. -/
noncomputable def rotate (az : ℝ) (v : ℝ × ℝ) : ℝ × ℝ :=
  (v.1 * Real.cos (rotAngle az) + v.2 * (- Real.sin (rotAngle az)),
   v.1 * Real.sin (rotAngle az) + v.2 * Real.cos (rotAngle az))

/-- One row of `np.matmul(h, D)` with `D = [[1, 0], [0, r]]`, `r = rng0/rng1`:
the first coordinate is unchanged, the second is multiplied by `r`. -/
noncomputable def scaleAniso (rng0 rng1 : ℝ) (v : ℝ × ℝ) : ℝ × ℝ :=
  (v.1, v.2 * (rng0 / rng1))

/-- `(h ** 2).sum(axis=-1) ** 0.5` applied to one rotated-and-scaled lag
vector: the Euclidean length of the transformed vector.  (`y ** 0.5`
coincides with the square root for the non-negative `y` arising here.) -/
noncomputable def lagDistance (az rng0 rng1 : ℝ) (v : ℝ × ℝ) : ℝ :=
  Real.sqrt ((scaleAniso rng0 rng1 (rotate az v)).1 ^ 2 +
             (scaleAniso rng0 rng1 (rotate az v)).2 ^ 2)

/-- The element-wise `np.where` expression of the return statement, applied
to one effective isotropic lag distance `h`. -/
noncomputable def sphericalValue (rng0 sill nugget h : ℝ) : ℝ :=
  if h < rng0 then
    (sill - nugget) * (3 * h / 2 / rng0 - 0.5 * (h / rng0) ^ 3) + nugget
  else sill

/-- A length-2 coordinate list read as a pair (defined for well-shaped
rows; rows of any other length are rejected before this is used). -/
noncomputable def toPair (v : List ℝ) : ℝ × ℝ := (v.getD 0 0, v.getD 1 0)

/-- The full function `spherical_semivariogram(x, az, rng, sill, nugget)`,
with `rng = (rng0, rng1)` passed as two scalars.  The order of the two
error checks matches the order in which the Python code raises:
`np.matmul` (shape) on line 46 before `rng[0] / rng[1]` (division) on
line 49. -/
noncomputable def spherical_semivariogram (x : List (List ℝ))
    (az rng0 rng1 sill nugget : ℝ) : Except SvError (List ℝ) :=
  if ¬ (∀ v ∈ x, v.length = 2) then .error .ShapeError
  else if rng1 = 0 then .error .DomainError
  else .ok (x.map fun v =>
    sphericalValue rng0 sill nugget (lagDistance az rng0 rng1 (toPair v)))

/-! ## Basic lemmas about the transformed lag distance -/

/-- The rotation preserves the squared Euclidean norm. -/
theorem rotate_sq_norm (az : ℝ) (v : ℝ × ℝ) :
    (rotate az v).1 ^ 2 + (rotate az v).2 ^ 2 = v.1 ^ 2 + v.2 ^ 2 := by
  have hcs := Real.sin_sq_add_cos_sq (rotAngle az)
  simp only [rotate]
  nlinarith [hcs]

/-- The zero lag vector has effective lag distance 0. -/
theorem lagDistance_zero (az rng0 rng1 : ℝ) :
    lagDistance az rng0 rng1 (0, 0) = 0 := by
  simp [lagDistance, scaleAniso, rotate]

/-- A lag vector aligned with the semi-major axis: scaling by `s` the unit
direction `(cos t, -sin t)` rotates to `(s, 0)`. -/
theorem rotate_major (az s : ℝ) :
    rotate az (s * Real.cos (rotAngle az), -(s * Real.sin (rotAngle az))) =
      (s, 0) := by
  have hcs := Real.sin_sq_add_cos_sq (rotAngle az)
  simp only [rotate, Prod.mk.injEq]
  constructor
  · linear_combination s * hcs
  · ring

/-- A lag vector aligned with the semi-minor axis: scaling by `s` the unit
direction `(sin t, cos t)` rotates to `(0, s)`. -/
theorem rotate_minor (az s : ℝ) :
    rotate az (s * Real.sin (rotAngle az), s * Real.cos (rotAngle az)) =
      (0, s) := by
  have hcs := Real.sin_sq_add_cos_sq (rotAngle az)
  simp only [rotate, Prod.mk.injEq]
  constructor
  · ring
  · linear_combination s * hcs

/-- Effective lag distance of a semi-major-axis-aligned vector of signed
length `s` is `|s|`. -/
theorem lagDistance_major (az rng0 rng1 s : ℝ) :
    lagDistance az rng0 rng1
      (s * Real.cos (rotAngle az), -(s * Real.sin (rotAngle az))) = |s| := by
  simp only [lagDistance, rotate_major, scaleAniso]
  rw [show s ^ 2 + (0 * (rng0 / rng1)) ^ 2 = s ^ 2 by ring]
  exact Real.sqrt_sq_eq_abs s

/-- Effective lag distance of a semi-minor-axis-aligned vector of signed
length `s` is `|s| * (rng0 / rng1)` when `0 ≤ rng0 / rng1`. -/
theorem lagDistance_minor (az rng0 rng1 s : ℝ) (hr : 0 ≤ rng0 / rng1) :
    lagDistance az rng0 rng1
      (s * Real.sin (rotAngle az), s * Real.cos (rotAngle az)) =
      |s| * (rng0 / rng1) := by
  simp only [lagDistance, rotate_minor, scaleAniso]
  rw [show (0:ℝ) ^ 2 + (s * (rng0 / rng1)) ^ 2 = (s * (rng0 / rng1)) ^ 2 by ring]
  rw [Real.sqrt_sq_eq_abs, abs_mul, abs_of_nonneg hr]

/-! ## Lemmas about the spherical formula -/

/-- At or beyond the major range the `np.where` selects `sill`. -/
theorem sphericalValue_of_le (rng0 sill nugget h : ℝ) (hge : rng0 ≤ h) :
    sphericalValue rng0 sill nugget h = sill := by
  simp only [sphericalValue, if_neg (not_lt.mpr hge)]

/-- At `h = 0` (with a positive major range) the formula gives the nugget. -/
theorem sphericalValue_zero (rng0 sill nugget : ℝ) (h0 : 0 < rng0) :
    sphericalValue rng0 sill nugget 0 = nugget := by
  simp only [sphericalValue, if_pos h0]
  ring

/-- The spherical formula is monotone on `[0, rng0)` when `nugget ≤ sill`. -/
theorem sphericalValue_mono (rng0 sill nugget h1 h2 : ℝ) (hn : nugget ≤ sill)
    (h1nn : 0 ≤ h1) (h12 : h1 ≤ h2) (h2lt : h2 < rng0) :
    sphericalValue rng0 sill nugget h1 ≤ sphericalValue rng0 sill nugget h2 := by
  have h0 : 0 < rng0 := lt_of_le_of_lt (le_trans h1nn h12) h2lt
  have h1lt : h1 < rng0 := lt_of_le_of_lt h12 h2lt
  simp only [sphericalValue, if_pos h1lt, if_pos h2lt]
  have hu0 : 0 ≤ h1 / rng0 := div_nonneg h1nn h0.le
  have hu12 : h1 / rng0 ≤ h2 / rng0 := by gcongr
  have hw1 : h2 / rng0 < 1 := (div_lt_one h0).mpr h2lt
  have e1 : 3 * h1 / 2 / rng0 = 3 / 2 * (h1 / rng0) := by ring
  have e2 : 3 * h2 / 2 / rng0 = 3 / 2 * (h2 / rng0) := by ring
  rw [e1, e2]
  set u := h1 / rng0 with hu
  set w := h2 / rng0 with hw
  have hw0 : 0 ≤ w := hu0.trans hu12
  have hw2 : w ^ 2 < 1 := by nlinarith
  have huw : u * w ≤ w ^ 2 := by nlinarith
  have hu2 : u ^ 2 ≤ w ^ 2 := by nlinarith
  have h3 : 0 ≤ 3 - (u ^ 2 + u * w + w ^ 2) := by nlinarith
  nlinarith [mul_nonneg (sub_nonneg.mpr hu12) h3,
    mul_le_mul_of_nonneg_left
      (show 3 / 2 * u - 0.5 * u ^ 3 ≤ 3 / 2 * w - 0.5 * w ^ 3 by
        nlinarith [mul_nonneg (sub_nonneg.mpr hu12) h3])
      (sub_nonneg.mpr hn)]

/-- The spherical formula stays within `[nugget, sill]` for `h ≥ 0` when
`nugget ≤ sill` and the major range is positive. -/
theorem sphericalValue_bounds (rng0 sill nugget h : ℝ) (h0 : 0 < rng0)
    (hh : 0 ≤ h) (hns : nugget ≤ sill) :
    nugget ≤ sphericalValue rng0 sill nugget h ∧
      sphericalValue rng0 sill nugget h ≤ sill := by
  unfold sphericalValue
  split
  case isTrue hlt =>
    have hu0 : 0 ≤ h / rng0 := div_nonneg hh h0.le
    have hu1 : h / rng0 < 1 := (div_lt_one h0).mpr hlt
    have e : 3 * h / 2 / rng0 = 3 / 2 * (h / rng0) := by ring
    rw [e]
    set u := h / rng0 with hu
    have hu2 : u ^ 2 ≤ 1 := by nlinarith
    have hcube : u ^ 3 ≤ u := by nlinarith [mul_le_mul_of_nonneg_left hu2 hu0]
    constructor
    · have hf : 0 ≤ 3 / 2 * u - 0.5 * u ^ 3 := by nlinarith
      nlinarith [mul_nonneg (sub_nonneg.mpr hns) hf]
    · have hf1 : 3 / 2 * u - 0.5 * u ^ 3 ≤ 1 := by
        nlinarith [mul_nonneg (sq_nonneg (1 - u)) (show (0:ℝ) ≤ u + 2 by linarith)]
      nlinarith [mul_le_mul_of_nonneg_left hf1 (sub_nonneg.mpr hns)]
  case isFalse _ => exact ⟨hns, le_refl _⟩

/-- With a well-shaped input and a nonzero minor range the function reduces
to the element-wise map. -/
theorem spherical_semivariogram_ok (x : List (List ℝ))
    (az rng0 rng1 sill nugget : ℝ)
    (hx : ∀ v ∈ x, v.length = 2) (hr : rng1 ≠ 0) :
    spherical_semivariogram x az rng0 rng1 sill nugget =
      .ok (x.map fun v =>
        sphericalValue rng0 sill nugget (lagDistance az rng0 rng1 (toPair v))) := by
  unfold spherical_semivariogram
  rw [if_neg (not_not_intro hx), if_neg hr]

/-- `rotAngle` at azimuth 0 is `π/2`. -/
theorem rotAngle_zero : rotAngle 0 = Real.pi / 2 := by
  simp [rotAngle]

/-- Closed form of the transformed lag distance at azimuth 0: the second
input coordinate (north) lands on the unscaled major axis, the first input
coordinate (east) lands on the scaled minor axis. -/
theorem lagDistance_az_zero (rng0 rng1 a b : ℝ) :
    lagDistance 0 rng0 rng1 (a, b) =
      Real.sqrt (b ^ 2 + (a * (rng0 / rng1)) ^ 2) := by
  unfold lagDistance scaleAniso rotate
  rw [rotAngle_zero, Real.cos_pi_div_two, Real.sin_pi_div_two]
  norm_num

/-- Evaluation helper: square roots of perfect squares. -/
theorem sqrt_of_sq (r c : ℝ) (hr : 0 ≤ r) (e : r ^ 2 = c) : Real.sqrt c = r := by
  rw [← e, Real.sqrt_sq hr]

/-- Evaluation helper: a singleton lag list at azimuth 0 reduces to one
`sphericalValue` of an explicit square root. -/
theorem eval_az_zero_singleton (rng0 rng1 sill nugget a b : ℝ) (hr : rng1 ≠ 0) :
    spherical_semivariogram [[a, b]] 0 rng0 rng1 sill nugget =
      .ok [sphericalValue rng0 sill nugget
        (Real.sqrt (b ^ 2 + (a * (rng0 / rng1)) ^ 2))] := by
  rw [spherical_semivariogram_ok _ _ _ _ _ _ (by simp) hr]
  simp [toPair, lagDistance_az_zero]

/-! ## The claims -/

/-- Claim C1 (counterexample): with `range_major = 0` and `range_minor = 1`
the function does not fail: it returns `sill` (here 10) for the lag vector
`[0, 0]`, because the only division performed by the code is by
`range_minor`, and `h < 0` is false for the non-negative distance `h`. -/
theorem c1_major_range_zero_returns_ok :
    spherical_semivariogram [[0, 0]] 0 0 1 10 2 = .ok [10] := by
  rw [spherical_semivariogram_ok _ _ _ _ _ _ (by simp) (by norm_num)]
  simp only [List.map_cons, List.map_nil]
  rw [show toPair [(0:ℝ), 0] = ((0:ℝ), (0:ℝ)) by simp [toPair], lagDistance_zero]
  rw [sphericalValue_of_le _ _ _ _ (le_refl 0)]

/-- Claim C1 (amended): if `range_minor` is zero (and every lag vector is
well-shaped), `spherical_semivariogram` fails with a DomainError — the
Python `ZeroDivisionError` from `rng[0] / rng[1]` — for every lag array,
azimuth, `range_major`, sill and nugget, with no local recovery. -/
theorem c1_minor_range_zero_domain_error (x : List (List ℝ))
    (az rng0 sill nugget : ℝ) (hx : ∀ v ∈ x, v.length = 2) :
    spherical_semivariogram x az rng0 0 sill nugget = .error .DomainError := by
  unfold spherical_semivariogram
  rw [if_neg (not_not_intro hx), if_pos rfl]

/-- Witness for C1's amended theorem at a concrete input. -/
theorem c1_minor_range_zero_domain_error_witness :
    spherical_semivariogram [[1, 2]] 5 3 0 7 1 = .error .DomainError :=
  c1_minor_range_zero_domain_error [[1, 2]] 5 3 7 1 (by simp)

/-- Claim C2 (counterexample): in the scenario `azimuth = 0`,
`range = (100, 50)`, `sill = 10`, `nugget = 2`, the lag vector `[0, 50]`
maps to `7.5`, not `10.0`: at azimuth 0 the semi-major axis points north,
so `[0, 50]` lies on the (unscaled) major axis at half the major range. -/
theorem c2_lag_north_fifty_ne_ten :
    spherical_semivariogram [[0, 50]] 0 100 50 10 2 = .ok [15 / 2] ∧
      (15 / 2 : ℝ) ≠ 10 := by
  constructor
  · rw [eval_az_zero_singleton _ _ _ _ _ _ (by norm_num)]
    rw [show (50:ℝ) ^ 2 + (0 * (100 / 50)) ^ 2 = 2500 by norm_num,
        sqrt_of_sq 50 2500 (by norm_num) (by norm_num)]
    unfold sphericalValue
    rw [if_pos (by norm_num)]
    norm_num
  · norm_num

/-- Claim C2 (amended): in the scenario `azimuth = 0`, `range = (100, 50)`,
`sill = 10`, `nugget = 2`, the lag `[0,0]` maps to `2.0`, the lag `[100,0]`
maps to `10.0`, and the lag `[0,50]` maps to `7.5`. -/
theorem c2_concrete_scenario :
    spherical_semivariogram [[0, 0], [100, 0], [0, 50]] 0 100 50 10 2 =
      .ok [2, 10, 15 / 2] := by
  rw [spherical_semivariogram_ok _ _ _ _ _ _ (by simp) (by norm_num)]
  have e1 : sphericalValue 100 10 2 (lagDistance 0 100 50 (toPair [0, 0])) = 2 := by
    rw [show toPair [(0:ℝ), 0] = ((0:ℝ), (0:ℝ)) by simp [toPair], lagDistance_zero,
        sphericalValue_zero _ _ _ (by norm_num)]
  have e2 : sphericalValue 100 10 2 (lagDistance 0 100 50 (toPair [100, 0])) = 10 := by
    rw [show toPair [(100:ℝ), 0] = ((100:ℝ), (0:ℝ)) by simp [toPair], lagDistance_az_zero,
        show (0:ℝ) ^ 2 + (100 * (100 / 50)) ^ 2 = 40000 by norm_num,
        sqrt_of_sq 200 40000 (by norm_num) (by norm_num),
        sphericalValue_of_le _ _ _ _ (by norm_num)]
  have e3 : sphericalValue 100 10 2 (lagDistance 0 100 50 (toPair [0, 50])) = 15 / 2 := by
    rw [show toPair [(0:ℝ), 50] = ((0:ℝ), (50:ℝ)) by simp [toPair], lagDistance_az_zero,
        show (50:ℝ) ^ 2 + (0 * (100 / 50)) ^ 2 = 2500 by norm_num,
        sqrt_of_sq 50 2500 (by norm_num) (by norm_num)]
    unfold sphericalValue
    rw [if_pos (by norm_num)]
    norm_num
  simp only [List.map_cons, List.map_nil, e1, e2, e3]

/-- Claim C3: the zero lag vector `[0, 0]` is mapped to exactly the nugget,
for every azimuth, every strictly positive pair of ranges, and every sill. -/
theorem c3_zero_lag_nugget (az rng0 rng1 sill nugget : ℝ)
    (h0 : 0 < rng0) (h1 : 0 < rng1) :
    spherical_semivariogram [[0, 0]] az rng0 rng1 sill nugget = .ok [nugget] := by
  rw [spherical_semivariogram_ok _ _ _ _ _ _ (by simp) h1.ne']
  simp only [List.map_cons, List.map_nil]
  rw [show toPair [(0:ℝ), 0] = ((0:ℝ), (0:ℝ)) by simp [toPair], lagDistance_zero,
      sphericalValue_zero _ _ _ h0]

/-- Witness for C3 at a concrete input. -/
theorem c3_zero_lag_nugget_witness :
    spherical_semivariogram [[0, 0]] 37 2 3 5 4 = .ok [4] :=
  c3_zero_lag_nugget 37 2 3 5 4 (by norm_num) (by norm_num)

/-- Claim C9: if some lag vector in the input does not have exactly 2
coordinates, the function fails with a ShapeError (the `ValueError` raised
by `np.matmul` before any semivariance is computed), returning no partial
result. -/
theorem c9_shape_error (x : List (List ℝ)) (az rng0 rng1 sill nugget : ℝ)
    (hbad : ∃ v ∈ x, v.length ≠ 2) :
    spherical_semivariogram x az rng0 rng1 sill nugget = .error .ShapeError := by
  unfold spherical_semivariogram
  rw [if_pos]
  obtain ⟨v, hv, hne⟩ := hbad
  exact fun hall => hne (hall v hv)

/-- Witness for C9 at a concrete input with a 1-coordinate lag vector. -/
theorem c9_shape_error_witness :
    spherical_semivariogram [[1]] 0 100 50 10 2 = .error .ShapeError :=
  c9_shape_error [[1]] 0 100 50 10 2 ⟨[1], by simp⟩

/-- Claim C4: a lag vector aligned with the semi-major axis direction
(`s` times the unit direction `(cos t, -sin t)`, which rotates to `(s, 0)`)
whose effective isotropic lag distance `|s|` is at least `range_major` is
mapped to exactly the sill — the else branch of the `np.where` — for every
azimuth, strictly positive ranges, sill, and nugget. -/
theorem c4_major_axis_beyond_range_sill (az rng0 rng1 sill nugget s : ℝ)
    (h0 : 0 < rng0) (h1 : 0 < rng1) (hs : rng0 ≤ |s|) :
    spherical_semivariogram
      [[s * Real.cos (rotAngle az), -(s * Real.sin (rotAngle az))]]
      az rng0 rng1 sill nugget = .ok [sill] := by
  rw [spherical_semivariogram_ok _ _ _ _ _ _ (by simp) h1.ne']
  simp only [List.map_cons, List.map_nil]
  rw [show toPair [s * Real.cos (rotAngle az), -(s * Real.sin (rotAngle az))] =
      (s * Real.cos (rotAngle az), -(s * Real.sin (rotAngle az))) by simp [toPair],
      lagDistance_major, sphericalValue_of_le _ _ _ _ hs]

/-- Witness for C4 at a concrete input. -/
theorem c4_major_axis_beyond_range_sill_witness :
    spherical_semivariogram
      [[5 * Real.cos (rotAngle 0), -(5 * Real.sin (rotAngle 0))]]
      0 3 2 7 1 = .ok [7] :=
  c4_major_axis_beyond_range_sill 0 3 2 7 1 5 (by norm_num) (by norm_num)
    (by rw [show |(5:ℝ)| = 5 from abs_of_nonneg (by norm_num)]; norm_num)

/-- Claim C5 (counterexample): at azimuth 0 the semi-minor axis points east;
the east lag vector `[100, 0]` of Euclidean length `range_major = 100`, with
`range_minor = 50 < range_major`, `sill = 10`, `nugget = 2`, is mapped to
exactly `10 = sill`, not to a value strictly less than the sill: the
anisotropic scaling multiplies the minor coordinate by
`range_major / range_minor = 2`, giving effective distance `200 ≥ 100`. -/
theorem c5_minor_axis_major_range_not_lt_sill :
    spherical_semivariogram [[100, 0]] 0 100 50 10 2 = .ok [10] ∧
      ¬ ((10 : ℝ) < 10) := by
  constructor
  · rw [eval_az_zero_singleton _ _ _ _ _ _ (by norm_num)]
    rw [show (0:ℝ) ^ 2 + (100 * (100 / 50)) ^ 2 = 40000 by norm_num,
        sqrt_of_sq 200 40000 (by norm_num) (by norm_num),
        sphericalValue_of_le _ _ _ _ (by norm_num)]
  · exact lt_irrefl 10

/-- Claim C5 (amended): a lag vector aligned exactly with the semi-minor
axis direction at Euclidean distance `range_major` is mapped to exactly the
sill whenever `range_minor < range_major` (with strictly positive ranges and
`nugget ≤ sill`): its effective isotropic distance is
`range_major * (range_major / range_minor) ≥ range_major`. -/
theorem c5_minor_axis_major_range_eq_sill (az rng0 rng1 sill nugget : ℝ)
    (h0 : 0 < rng0) (h1 : 0 < rng1) (hlt : rng1 < rng0) (hns : nugget ≤ sill) :
    spherical_semivariogram
      [[rng0 * Real.sin (rotAngle az), rng0 * Real.cos (rotAngle az)]]
      az rng0 rng1 sill nugget = .ok [sill] := by
  rw [spherical_semivariogram_ok _ _ _ _ _ _ (by simp) h1.ne']
  simp only [List.map_cons, List.map_nil]
  rw [show toPair [rng0 * Real.sin (rotAngle az), rng0 * Real.cos (rotAngle az)] =
      (rng0 * Real.sin (rotAngle az), rng0 * Real.cos (rotAngle az)) by simp [toPair],
      lagDistance_minor _ _ _ _ (div_nonneg h0.le h1.le), abs_of_nonneg h0.le]
  have hd : 1 ≤ rng0 / rng1 := (one_le_div h1).mpr hlt.le
  have hge : rng0 ≤ rng0 * (rng0 / rng1) := by nlinarith
  rw [sphericalValue_of_le _ _ _ _ hge]

/-- Witness for C5's amended theorem at a concrete input. -/
theorem c5_minor_axis_major_range_eq_sill_witness :
    spherical_semivariogram
      [[4 * Real.sin (rotAngle 0), 4 * Real.cos (rotAngle 0)]]
      0 4 2 9 3 = .ok [9] :=
  c5_minor_axis_major_range_eq_sill 0 4 2 9 3 (by norm_num) (by norm_num)
    (by norm_num) (by norm_num)

/-- Claim C6: a lag vector of Euclidean length exactly `range_minor`
aligned with the semi-minor axis direction is mapped to exactly the sill,
for every azimuth, strictly positive ranges, sill, and nugget: its
effective isotropic distance is
`range_minor * (range_major / range_minor) = range_major`. -/
theorem c6_minor_axis_minor_range_sill (az rng0 rng1 sill nugget : ℝ)
    (h0 : 0 < rng0) (h1 : 0 < rng1) :
    spherical_semivariogram
      [[rng1 * Real.sin (rotAngle az), rng1 * Real.cos (rotAngle az)]]
      az rng0 rng1 sill nugget = .ok [sill] := by
  rw [spherical_semivariogram_ok _ _ _ _ _ _ (by simp) h1.ne']
  simp only [List.map_cons, List.map_nil]
  rw [show toPair [rng1 * Real.sin (rotAngle az), rng1 * Real.cos (rotAngle az)] =
      (rng1 * Real.sin (rotAngle az), rng1 * Real.cos (rotAngle az)) by simp [toPair],
      lagDistance_minor _ _ _ _ (div_nonneg h0.le h1.le), abs_of_nonneg h1.le,
      show rng1 * (rng0 / rng1) = rng0 from by
        rw [mul_comm, div_mul_cancel₀ _ h1.ne'],
      sphericalValue_of_le _ _ _ _ (le_refl rng0)]

/-- Witness for C6 at a concrete input. -/
theorem c6_minor_axis_minor_range_sill_witness :
    spherical_semivariogram
      [[2 * Real.sin (rotAngle 0), 2 * Real.cos (rotAngle 0)]]
      0 4 2 9 3 = .ok [9] :=
  c6_minor_axis_minor_range_sill 0 4 2 9 3 (by norm_num) (by norm_num)

/-- Homogeneity: scaling a lag vector scales the transformed lag distance
by the absolute value of the factor. -/
theorem lagDistance_smul (az rng0 rng1 s a b : ℝ) :
    lagDistance az rng0 rng1 (s * a, s * b) =
      |s| * lagDistance az rng0 rng1 (a, b) := by
  simp only [lagDistance, scaleAniso, rotate]
  rw [← Real.sqrt_sq_eq_abs, ← Real.sqrt_mul (sq_nonneg s)]
  congr 1
  ring

/-- The transformed lag distance is a square root, hence non-negative. -/
theorem lagDistance_nonneg (az rng0 rng1 : ℝ) (v : ℝ × ℝ) :
    0 ≤ lagDistance az rng0 rng1 v := Real.sqrt_nonneg _

/-- In the isotropic case `rng0 = rng1 = rng ≠ 0` the anisotropic scaling
is the identity and the rotation preserves the norm, so the transformed
lag distance is the plain Euclidean norm. -/
theorem lagDistance_iso (az rng : ℝ) (hr : rng ≠ 0) (v : ℝ × ℝ) :
    lagDistance az rng rng v = Real.sqrt (v.1 ^ 2 + v.2 ^ 2) := by
  have hsc : (scaleAniso rng rng (rotate az v)).1 ^ 2 +
      (scaleAniso rng rng (rotate az v)).2 ^ 2 =
      (rotate az v).1 ^ 2 + (rotate az v).2 ^ 2 := by
    simp only [scaleAniso, div_self hr, mul_one]
  unfold lagDistance
  rw [hsc, rotate_sq_norm]

/-- Claim C7: along a fixed direction `(a, b)` scaled by `0 ≤ s1 ≤ s2`,
with the larger effective isotropic lag magnitude still below
`range_major` and `sill ≥ nugget`, the semivariance returned for the
smaller lag vector is at most the semivariance returned for the larger. -/
theorem c7_monotone (az rng0 rng1 sill nugget a b s1 s2 y1 y2 : ℝ)
    (h1 : 0 < rng1) (hns : nugget ≤ sill) (hs1 : 0 ≤ s1) (hs12 : s1 ≤ s2)
    (hh2 : lagDistance az rng0 rng1 (s2 * a, s2 * b) < rng0)
    (e1 : spherical_semivariogram [[s1 * a, s1 * b]] az rng0 rng1 sill nugget
      = .ok [y1])
    (e2 : spherical_semivariogram [[s2 * a, s2 * b]] az rng0 rng1 sill nugget
      = .ok [y2]) :
    y1 ≤ y2 := by
  have L0 : 0 ≤ lagDistance az rng0 rng1 (a, b) := lagDistance_nonneg _ _ _ _
  have d1 : lagDistance az rng0 rng1 (s1 * a, s1 * b) =
      s1 * lagDistance az rng0 rng1 (a, b) := by
    rw [lagDistance_smul, abs_of_nonneg hs1]
  have d2 : lagDistance az rng0 rng1 (s2 * a, s2 * b) =
      s2 * lagDistance az rng0 rng1 (a, b) := by
    rw [lagDistance_smul, abs_of_nonneg (hs1.trans hs12)]
  rw [spherical_semivariogram_ok _ _ _ _ _ _ (by simp) h1.ne'] at e1 e2
  simp only [List.map_cons, List.map_nil, Except.ok.injEq, List.cons.injEq,
    and_true, show toPair [s1 * a, s1 * b] = (s1 * a, s1 * b) by simp [toPair],
    show toPair [s2 * a, s2 * b] = (s2 * a, s2 * b) by simp [toPair]] at e1 e2
  rw [← e1, ← e2]
  apply sphericalValue_mono
  · exact hns
  · rw [d1]; exact mul_nonneg hs1 L0
  · rw [d1, d2]; exact mul_le_mul_of_nonneg_right hs12 L0
  · exact hh2

/-- Witness for C7 at a concrete instance: direction north at azimuth 0,
scalars 0 and 50, giving semivariances 2 and 7.5. -/
theorem c7_monotone_witness :
    spherical_semivariogram [[(0:ℝ) * 0, 0 * 1]] 0 100 50 10 2 = .ok [2] ∧
    spherical_semivariogram [[(50:ℝ) * 0, 50 * 1]] 0 100 50 10 2 = .ok [15 / 2] ∧
    (2 : ℝ) ≤ 15 / 2 := by
  have he1 : spherical_semivariogram [[(0:ℝ) * 0, 0 * 1]] 0 100 50 10 2
      = .ok [2] := by
    rw [show ((0:ℝ) * 0) = (0:ℝ) by norm_num, show ((0:ℝ) * 1) = (0:ℝ) by norm_num,
        eval_az_zero_singleton _ _ _ _ _ _ (by norm_num),
        show (0:ℝ) ^ 2 + (0 * (100 / 50)) ^ 2 = 0 by norm_num, Real.sqrt_zero,
        sphericalValue_zero _ _ _ (by norm_num)]
  have he2 : spherical_semivariogram [[(50:ℝ) * 0, 50 * 1]] 0 100 50 10 2
      = .ok [15 / 2] := by
    rw [show ((50:ℝ) * 0) = (0:ℝ) by norm_num, show ((50:ℝ) * 1) = (50:ℝ) by norm_num,
        eval_az_zero_singleton _ _ _ _ _ _ (by norm_num),
        show (50:ℝ) ^ 2 + (0 * (100 / 50)) ^ 2 = 2500 by norm_num,
        sqrt_of_sq 50 2500 (by norm_num) (by norm_num)]
    unfold sphericalValue
    rw [if_pos (by norm_num)]
    norm_num
  refine ⟨he1, he2, ?_⟩
  exact c7_monotone 0 100 50 10 2 0 1 0 50 2 (15 / 2) (by norm_num) (by norm_num)
    (by norm_num) (by norm_num)
    (by rw [show ((50:ℝ) * 0, (50:ℝ) * 1) = ((0:ℝ), (50:ℝ)) by norm_num,
          lagDistance_az_zero,
          show (50:ℝ) ^ 2 + (0 * (100 / 50)) ^ 2 = 2500 by norm_num,
          sqrt_of_sq 50 2500 (by norm_num) (by norm_num)]
        norm_num)
    he1 he2

/-- Claim C8: when `range_major = range_minor`, the output is independent
of the azimuth parameter (for every input array) and depends only on the
Euclidean magnitudes of the lag vectors. -/
theorem c8_isotropy (az1 az2 rng sill nugget : ℝ) (x : List (List ℝ))
    (a b a' b' : ℝ) (hnorm : a ^ 2 + b ^ 2 = a' ^ 2 + b' ^ 2) :
    spherical_semivariogram x az1 rng rng sill nugget =
      spherical_semivariogram x az2 rng rng sill nugget ∧
    spherical_semivariogram [[a, b]] az1 rng rng sill nugget =
      spherical_semivariogram [[a', b']] az2 rng rng sill nugget := by
  by_cases hr : rng = 0
  · subst hr
    constructor
    · unfold spherical_semivariogram
      by_cases hx : ∀ v ∈ x, v.length = 2
      · rw [if_neg (not_not_intro hx), if_neg (not_not_intro hx), if_pos rfl,
          if_pos rfl]
      · rw [if_pos hx, if_pos hx]
    · unfold spherical_semivariogram
      rw [if_neg (not_not_intro (by simp)), if_neg (not_not_intro (by simp)),
        if_pos rfl, if_pos rfl]
  · constructor
    · by_cases hx : ∀ v ∈ x, v.length = 2
      · rw [spherical_semivariogram_ok _ _ _ _ _ _ hx hr,
          spherical_semivariogram_ok _ _ _ _ _ _ hx hr]
        congr 1
        apply List.map_congr_left
        intro v _
        rw [lagDistance_iso _ _ hr, lagDistance_iso _ _ hr]
      · unfold spherical_semivariogram
        rw [if_pos hx, if_pos hx]
    · rw [spherical_semivariogram_ok _ _ _ _ _ _ (by simp) hr,
        spherical_semivariogram_ok _ _ _ _ _ _ (by simp) hr]
      simp only [List.map_cons, List.map_nil,
        show toPair [a, b] = (a, b) by simp [toPair],
        show toPair [a', b'] = (a', b') by simp [toPair],
        lagDistance_iso _ _ hr]
      rw [show ((a, b) : ℝ × ℝ).1 ^ 2 + ((a, b) : ℝ × ℝ).2 ^ 2 =
          a ^ 2 + b ^ 2 from rfl,
        show ((a', b') : ℝ × ℝ).1 ^ 2 + ((a', b') : ℝ × ℝ).2 ^ 2 =
          a' ^ 2 + b' ^ 2 from rfl, hnorm]

/-- Witness for C8 at concrete inputs: azimuths 30 and 60, equal-norm lag
vectors `[3, 4]` and `[5, 0]`. -/
theorem c8_isotropy_witness :
    (spherical_semivariogram [[1, 2]] 30 7 7 5 1 =
      spherical_semivariogram [[1, 2]] 60 7 7 5 1) ∧
    (spherical_semivariogram [[3, 4]] 30 7 7 5 1 =
      spherical_semivariogram [[5, 0]] 60 7 7 5 1) :=
  c8_isotropy 30 60 7 5 1 [[1, 2]] 3 4 5 0 (by norm_num)

/-- Claim C10: with strictly positive ranges and `0 ≤ nugget ≤ sill`,
every value in a successfully returned output list lies in the closed
interval `[nugget, sill]`. -/
theorem c10_bounds (x : List (List ℝ)) (az rng0 rng1 sill nugget : ℝ)
    (ys : List ℝ) (h0 : 0 < rng0) (h1 : 0 < rng1) (hn0 : 0 ≤ nugget)
    (hns : nugget ≤ sill)
    (he : spherical_semivariogram x az rng0 rng1 sill nugget = .ok ys) :
    ∀ y ∈ ys, nugget ≤ y ∧ y ≤ sill := by
  by_cases hx : ∀ v ∈ x, v.length = 2
  · rw [spherical_semivariogram_ok _ _ _ _ _ _ hx h1.ne'] at he
    simp only [Except.ok.injEq] at he
    subst he
    intro y hy
    rw [List.mem_map] at hy
    obtain ⟨v, _, rfl⟩ := hy
    exact sphericalValue_bounds _ _ _ _ h0 (lagDistance_nonneg _ _ _ _) hns
  · unfold spherical_semivariogram at he
    rw [if_pos hx] at he
    exact absurd he (by simp)

/-- Witness for C10 at a concrete input: the zero lag vector gives the
output `[2]`, and `2` lies within `[2, 10]`. -/
theorem c10_bounds_witness :
    spherical_semivariogram [[0, 0]] 0 100 50 10 2 = .ok [2] ∧
      ((2:ℝ) ≤ 2 ∧ (2:ℝ) ≤ 10) := by
  have he : spherical_semivariogram [[0, 0]] 0 100 50 10 2 = .ok [2] := by
    rw [eval_az_zero_singleton _ _ _ _ _ _ (by norm_num),
        show (0:ℝ) ^ 2 + (0 * (100 / 50)) ^ 2 = 0 by norm_num, Real.sqrt_zero,
        sphericalValue_zero _ _ _ (by norm_num)]
  exact ⟨he, c10_bounds [[0, 0]] 0 100 50 10 2 [2] (by norm_num) (by norm_num)
    (by norm_num) (by norm_num) he 2 (by simp)⟩

end Semivariograms
